import Mathlib

/-!
Verification of the path-to-metadata inference engine and its surrounding
plumbing from `src/App.tsx` (the `oi_navi` repository), as a shallow
embedding in Lean 4.

Modelling conventions used throughout:

* JavaScript strings are Lean `String`s; `undefined`-able strings are
  `Option String`.
* A JavaScript array index that may be out of range yields an `Option`
  (`l[i]?`), mirroring `undefined` for out-of-range access.
* `Array.prototype.sort(cmp)` is modelled as a stable insertion sort
  over the boolean relation "cmp a b does not return a positive number".
  ECMAScript requires `Array.prototype.sort` to be stable, and for a
  consistent comparator every stable sort produces the same sequence.
  Per the ECMAScript `SortCompare` operation, a comparator returning
  `NaN` is coerced to `+0`, i.e. the two elements compare as equal.
* `parseInt(s, 10)` is modelled exactly over unbounded integers
  (whitespace skipping, optional sign, longest digit prefix).  The
  double-precision overflow of numerals with more than ~309 digits to
  `Infinity` is not modelled; all values of interest are 4-digit years.
* `String.prototype.localeCompare` is locale dependent; it is modelled
  as an abstract comparison parameter `lc : String → String → Ordering`
  standing for the sign of `a.localeCompare(b)`.
* `new Set(...)` iteration keeps the first occurrence of each element,
  modelled by `dedupFirst`.
-/

/-- The set of characters `parseInt` skips as leading whitespace
(ECMAScript WhiteSpace and LineTerminator code points). -/
def isJsSpace (c : Char) : Bool :=
  [9, 10, 11, 12, 13, 32, 160, 5760, 8232, 8233, 8239, 8287, 12288, 65279].contains c.toNat
    || (8192 ≤ c.toNat && c.toNat ≤ 8202)

/-- Numeric value of a list of decimal digit characters. -/
def digitsToNat (ds : List Char) : Nat :=
  ds.foldl (fun acc c => 10 * acc + (c.toNat - 48)) 0

/-- `parseInt(s, 10)`: skip leading whitespace, read an optional sign, then the
longest prefix of decimal digits; `none` models a `NaN` result. -/
def jsParseInt (s : String) : Option Int :=
  let cs := s.data.dropWhile isJsSpace
  let sgn : Int := match cs with
    | c :: _ => if c = '-' then -1 else 1
    | [] => 1
  let rest : List Char := match cs with
    | c :: tl => if c = '-' || c = '+' then tl else cs
    | [] => []
  let ds := rest.takeWhile Char.isDigit
  if ds.isEmpty then none else some (sgn * (digitsToNat ds : Int))

/-- `str.split(sep)` for a single-character separator, over character lists. -/
def splitOnChar (sep : Char) : List Char → List (List Char)
  | [] => [[]]
  | c :: cs =>
    let r := splitOnChar sep cs
    if c = sep then [] :: r
    else
      match r with
      | [] => [[c]]
      | h :: t => (c :: h) :: t

/-- `path.split(sep)` as in JavaScript (single-character separator). -/
def jsSplit (sep : Char) (s : String) : List String :=
  (splitOnChar sep s.data).map String.mk

/-- The test `/^\d{4}$/.test(s)`: exactly four ASCII decimal digits. -/
def isFourDigits (s : String) : Bool :=
  s.data.length == 4 && s.data.all Char.isDigit

/-- `fileName.replace(/\.[^.]+$/, '')`: drop a final `.ext` suffix where `ext`
is a nonempty run of non-dot characters; otherwise return the string
unchanged. -/
def stripExt (s : String) : String :=
  let rev := s.data.reverse
  let ext := rev.takeWhile (fun c => c ≠ '.')
  if ext.isEmpty then s
  else if (rev.drop ext.length).isEmpty then s
  else String.mk ((rev.drop (ext.length + 1)).reverse)

/-- `Array.prototype.findIndex`, with `none` for the `-1` result. -/
def jsFindIndex (p : α → Bool) : List α → Option Nat
  | [] => none
  | x :: xs => if p x then some 0 else (jsFindIndex p xs).map (· + 1)

/-- First-occurrence de-duplication, the iteration order of
`Array.from(new Set(l))`. -/
def dedupFirstAux (seen : List String) : List String → List String
  | [] => []
  | x :: xs =>
    if seen.contains x then dedupFirstAux seen xs
    else x :: dedupFirstAux (x :: seen) xs

/-- `Array.from(new Set(l))`: keep the first occurrence of each value. -/
def dedupFirst (l : List String) : List String := dedupFirstAux [] l

/-- Stable sort by a boolean "may precede" relation; models
`Array.prototype.sort` run with a comparator `cmp` where
`le a b = true` iff `cmp(a, b)` is not positive. -/
def jsSortBy (le : α → α → Bool) (l : List α) : List α :=
  List.insertionSort (fun a b => le a b = true) l

/-- `true` unless the ordering is `gt`; turns the sign of a JavaScript
comparator result into the "may precede" relation used by the sort. -/
def ordNotGT : Ordering → Bool
  | Ordering.gt => false
  | _ => true

/-- `haystack.includes(needle)` on strings. -/
def strIncludes (haystack needle : String) : Bool :=
  haystack.data.tails.any fun t => needle.data.isPrefixOf t

/-- `s.trim()`: strip leading and trailing whitespace. -/
def jsTrim (s : String) : String :=
  String.mk (((s.data.dropWhile isJsSpace).reverse.dropWhile isJsSpace).reverse)

/-- `s.toLowerCase()`, character by character (ASCII case folding; the paths
and filter strings of interest are case-folded only on ASCII letters). -/
def jsToLower (s : String) : String :=
  String.mk (s.data.map Char.toLower)

/-! ## Data model (`App.tsx` lines 4-45) -/

/-- One inferred record per repository file (`type ProblemEntry`). -/
structure ProblemEntry where
  id : String
  name : String
  path : String
  url : String
  contest : Option String := none
  year : Option String := none
  level : Option String := none
  segments : List String
deriving DecidableEq, Repr

/-- `type RepoInfo`. -/
structure RepoInfo where
  default_branch : Option String := none
  pushed_at : Option String := none
deriving DecidableEq, Repr

/-- `type DataSource = 'gitee' | 'github'`. -/
inductive DataSource
  | gitee
  | github
deriving DecidableEq, Repr

/-- One hosting-provider configuration record from `CONFIG`. -/
structure SourceConf where
  owner : String
  repo : String
  apiRoot : String
  fallbackBranch : String
  urlRoot : String
  label : String
  desc : String
deriving DecidableEq, Repr

/-- The `CONFIG` table. -/
def CONFIG : DataSource → SourceConf
  | DataSource.gitee =>
    { owner := "winant", repo := "oi", apiRoot := "https://gitee.com/api/v5"
      fallbackBranch := "master", urlRoot := "https://gitee.com", label := "Gitee"
      desc := "国内访问稳定，数据可能稍旧" }
  | DataSource.github =>
    { owner := "winterant", repo := "oi", apiRoot := "https://api.github.com"
      fallbackBranch := "main", urlRoot := "https://github.com", label := "GitHub"
      desc := "数据最新，需科学上网" }

/-- `getExtension`: last `.`-separated component, lower-cased. -/
def getExtension (path : String) : String :=
  match (jsSplit '.' path).getLast? with
  | some s => jsToLower s
  | none => ""

/-- The fixed built-in sample collection `SAMPLE_ENTRIES`. -/
def SAMPLE_ENTRIES : List ProblemEntry :=
  [{ id := "sample-readme", name := "仓库 README", path := "README.md"
     url := "https://gitee.com/winant/oi", contest := some "仓库首页"
     year := none, level := none, segments := [] }]

/-! ## URL builder (`App.tsx` lines 70-90) -/

/-- UTF-8 encoding of a character, as byte values. -/
def utf8Bytes (c : Char) : List Nat :=
  let n := c.toNat
  if n < 128 then [n]
  else if n < 2048 then [192 + n / 64, 128 + n % 64]
  else if n < 65536 then [224 + n / 4096, 128 + (n / 64) % 64, 128 + n % 64]
  else [240 + n / 262144, 128 + (n / 4096) % 64, 128 + (n / 64) % 64, 128 + n % 64]

/-- Upper-case hexadecimal digit. -/
def hexDigit (n : Nat) : Char :=
  if n < 10 then Char.ofNat (48 + n) else Char.ofNat (55 + n)

/-- Characters `encodeURIComponent` leaves unescaped. -/
def isUnreservedURIChar (c : Char) : Bool :=
  (65 ≤ c.toNat && c.toNat ≤ 90) || (97 ≤ c.toNat && c.toNat ≤ 122)
    || (48 ≤ c.toNat && c.toNat ≤ 57)
    || [45, 95, 46, 33, 126, 42, 39, 40, 41].contains c.toNat

/-- `encodeURIComponent`: percent-encode every reserved character byte-wise. -/
def encodeURIComponent (s : String) : String :=
  String.join (s.data.map fun c =>
    if isUnreservedURIChar c then String.mk [c]
    else String.join ((utf8Bytes c).map fun b =>
      String.mk ['%', hexDigit (b / 16), hexDigit (b % 16)]))

/-- `buildRepoUrl`: `pdf` files get a raw/download URL, everything else a
blob-view URL; the path is percent-encoded segment by segment. -/
def buildRepoUrl (path branch : String) (source : DataSource) : String :=
  let conf := CONFIG source
  let encodedPath := String.intercalate "/" ((jsSplit '/' path).map encodeURIComponent)
  match source with
  | DataSource.gitee =>
    if getExtension path = "pdf" then
      conf.urlRoot ++ "/" ++ conf.owner ++ "/" ++ conf.repo ++ "/raw/" ++ branch ++ "/" ++ encodedPath
    else
      conf.urlRoot ++ "/" ++ conf.owner ++ "/" ++ conf.repo ++ "/blob/" ++ branch ++ "/" ++ encodedPath
  | DataSource.github =>
    if getExtension path = "pdf" then
      "https://raw.githubusercontent.com/" ++ conf.owner ++ "/" ++ conf.repo ++ "/" ++ branch ++ "/" ++ encodedPath
    else
      conf.urlRoot ++ "/" ++ conf.owner ++ "/" ++ conf.repo ++ "/blob/" ++ branch ++ "/" ++ encodedPath

/-! ## Path parser `mapPathToEntry` (`App.tsx` lines 97-139) -/

/-- Year inference (lines 103-110): first directory segment of exactly four
digits; failing that, a four-digit file-name stem. -/
def inferYear (infoSegments : List String) (fileName : String) : Option String :=
  match (jsFindIndex isFourDigits infoSegments).bind (fun i => infoSegments[i]?) with
  | some y => some y
  | none =>
    let nameWithoutExt := stripExt fileName
    if isFourDigits nameWithoutExt then some nameWithoutExt else none

/-- Contest inference (lines 112-119).  The candidate is
`infoSegments[0]` when `yearIndex > 0`; otherwise `infoSegments[1]` when
`infoSegments[0] === year`, else `infoSegments[0]`.  The candidate is kept
only when truthy and different from the file name. -/
def inferContest (infoSegments : List String) (fileName : String) : Option String :=
  let yearIndex := jsFindIndex isFourDigits infoSegments
  let year := inferYear infoSegments fileName
  let contestCandidate : Option String :=
    match yearIndex with
    | some i =>
      if 0 < i then infoSegments[0]?
      else if infoSegments[0]? = year then infoSegments[1]? else infoSegments[0]?
    | none =>
      if infoSegments[0]? = year then infoSegments[1]? else infoSegments[0]?
  match contestCandidate with
  | some c => if c ≠ "" && c ≠ fileName then some c else none
  | none => none

/-- Level inference (lines 120-125): the non-empty segment following the
directory-level year, else — when `yearIndex > 1` — the segment before it. -/
def inferLevel (infoSegments : List String) : Option String :=
  let fallback : Nat → Option String := fun i =>
    if 1 < i then infoSegments[i - 1]? else none
  match jsFindIndex isFourDigits infoSegments with
  | none => none
  | some i =>
    match infoSegments[i + 1]? with
    | some s => if s ≠ "" then some s else fallback i
    | none => fallback i

/-- The record literal built at lines 129-138. -/
def mkEntry (path branch : String) (source : DataSource) (fileName : String)
    (infoSegments : List String) : ProblemEntry :=
  { id := path
    name := (let n := stripExt fileName; if n = "" then fileName else n)
    path := path
    url := buildRepoUrl path branch source
    contest := inferContest infoSegments fileName
    year := inferYear infoSegments fileName
    level := inferLevel infoSegments
    segments := infoSegments }

/-- `mapPathToEntry` (lines 97-139): split the path, fail softly when the
file-name component is falsy, otherwise build the entry. -/
def mapPathToEntry (path branch : String) (source : DataSource) : Option ProblemEntry :=
  let segments := jsSplit '/' path
  match segments.getLast? with
  | none => none
  | some fileName =>
    if fileName = "" then none
    else some (mkEntry path branch source fileName segments.dropLast)

/-! ## Option builder `buildOptions` (`App.tsx` lines 58-68) -/

/-- The `values.filter(Boolean)` step: keep only truthy (present, non-empty)
strings. -/
def keepTruthy : Option String → Option String
  | some s => if s = "" then none else some s
  | none => none

/-- `safeParse` from `buildOptions`: `parseInt(value, 10)` with non-finite
results mapped to `-Infinity` (modelled as `none`). -/
def safeParse (value : String) : Option Int := jsParseInt value

/-- The "may precede" relation of the numeric comparator
`(a, b) => safeParse(b) - safeParse(a)`: `keyGE x y` is true iff the
comparator does not return a positive number when the first element has key
`x` and the second key `y` (`none` is `-Infinity`; for two `-Infinity` keys
the subtraction yields `NaN`, which `SortCompare` coerces to `+0`). -/
def keyGE : Option Int → Option Int → Bool
  | _, none => true
  | none, some _ => false
  | some x, some y => decide (y ≤ x)

/-- `buildOptions` (lines 58-68): drop falsy values, de-duplicate keeping
first occurrences, then sort — descending by `safeParse` when `sortNumber`,
ascending by `localeCompare` (the abstract `lc`) otherwise. -/
def buildOptions (lc : String → String → Ordering) (values : List (Option String))
    (sortNumber : Bool) : List String :=
  let unique := dedupFirst (values.filterMap keepTruthy)
  if sortNumber then
    jsSortBy (fun a b => keyGE (safeParse a) (safeParse b)) unique
  else
    jsSortBy (fun a b => ordNotGT (lc a b)) unique

/-! ## Filter/sort engine `filteredEntries` (`App.tsx` lines 298-331) -/

/-- `getYearAsNumber` from the sort comparator: falsy values and parse
failures become `-Infinity` (`none`). -/
def getYearAsNumber : Option String → Option Int
  | none => none
  | some s => if s = "" then none else jsParseInt s

/-- The sign of the comparator at lines 319-330, after the ECMAScript
`SortCompare` coercion of a `NaN` result to `+0`.  `diff` is
`getYearAsNumber(b.year) - getYearAsNumber(a.year)`; when both years are
`-Infinity` the subtraction is `NaN`, which is **not** `0`, so the raw
comparator returns `NaN` (coerced to `+0` here) and the tie-breaks are
skipped. -/
def entryCompare (lc : String → String → Ordering) (a b : ProblemEntry) : Ordering :=
  match getYearAsNumber b.year, getYearAsNumber a.year with
  | some yb, some ya =>
    if yb = ya then
      match a.contest, b.contest with
      | some ac, some bc =>
        if ac ≠ "" && bc ≠ "" && ac ≠ bc then lc ac bc else lc a.path b.path
      | _, _ => lc a.path b.path
    else compare yb ya
  | some _, none => Ordering.gt
  | none, some _ => Ordering.lt
  | none, none => Ordering.eq

/-- Filter on the `year` selection (line 302). -/
def passYear (year : String) (e : ProblemEntry) : Bool :=
  if year = "" then true else e.year == some year

/-- Filter on the `contest` selection (line 303). -/
def passContest (contest : String) (e : ProblemEntry) : Bool :=
  if contest = "" then true else e.contest == some contest

/-- Filter on the `level` selection (line 304). -/
def passLevel (level : String) (e : ProblemEntry) : Bool :=
  if level = "" then true else e.level == some level

/-- Free-text filter (lines 305-318): the lower-cased space-joined
concatenation of the truthy fields must contain `searchText`. -/
def passSearch (searchText : String) (e : ProblemEntry) : Bool :=
  if searchText = "" then true
  else
    let combined := jsToLower (String.intercalate " "
      (([some e.name, some e.path, e.contest, e.year, e.level].filterMap keepTruthy)))
    strIncludes combined searchText

/-- The `filteredEntries` memo (lines 300-331): four conjunctive filters,
then the sort; `searchText` is the trimmed, lower-cased free text
(line 298). -/
def filteredEntries (lc : String → String → Ordering) (entries : List ProblemEntry)
    (year contest level filteredText : String) : List ProblemEntry :=
  let searchText := jsToLower (jsTrim filteredText)
  jsSortBy (fun a b => ordNotGT (entryCompare lc a b))
    ((((entries.filter (passYear year)).filter (passContest contest)).filter
        (passLevel level)).filter (passSearch searchText))

/-! ## Load orchestration `loadData` (`App.tsx` lines 208-285)

The two network calls and the two `localStorage` reads are modelled as
explicit outcome parameters (`Except Unit _`, where `Except.error` models a
thrown exception / rejected promise).  The raw cached string is modelled by
the outcome of `JSON.parse` on it; `CacheRead.absent` covers both a missing
key and an empty cached string (both falsy under `if (cached)`).  The same
read outcome is used for the pre-fetch read and the post-failure fallback
read: the storage is not written between them in a single browsing context.
UI-only state (status note, branch display, cache writing — whose failures
are caught and ignored at lines 261-263) is omitted from the outcome. -/

/-- The parsed shape of a cache record (line 220). -/
structure CacheData where
  timestamp : Int
  data : List ProblemEntry
  branch : String
  updatedAt : Option String
deriving DecidableEq, Repr

/-- Result of `localStorage.getItem` followed by the truthiness check. -/
inductive CacheRead
  | absent
  | present (parsed : Except Unit CacheData)

/-- One item of the fetched git tree (line 162). -/
structure TreeItem where
  path : String
  type : String
deriving DecidableEq, Repr

/-- The payload of the tree fetch (`payload.tree` may be missing). -/
structure TreePayload where
  tree : Option (List TreeItem) := none

/-- The `status` state values that terminate a load. -/
inductive LoadStatus
  | loading
  | ready
  | error
deriving DecidableEq, Repr

/-- The slice of component state a load resolves to. -/
structure LoadOutcome where
  entries : List ProblemEntry
  status : LoadStatus
  fromCache : Bool
deriving DecidableEq, Repr

/-- `CACHE_DURATION = 1000 * 60 * 60 * 24` (line 208). -/
def CACHE_DURATION : Int := 1000 * 60 * 60 * 24

/-- `fetchRepoEntries` (lines 151-169), applied to an already-fetched
payload: keep `blob` items and parse each path, dropping `null` results. -/
def fetchRepoEntries (branch : String) (source : DataSource) (payload : TreePayload) :
    List ProblemEntry :=
  match payload.tree with
  | none => []
  | some items =>
    (items.filter (fun item => item.type == "blob")).filterMap
      (fun item => mapPathToEntry item.path branch source)

/-- The guarded pre-fetch cache branch (lines 216-234): inside `try`, a
throwing read or parse is caught and ignored; a fresh cached record returns
early. -/
def initialCacheResult (forceUpdate : Bool) (now : Int)
    (cacheGet : Except Unit CacheRead) : Option LoadOutcome :=
  if forceUpdate then none
  else
    match cacheGet with
    | Except.error _ => none
    | Except.ok CacheRead.absent => none
    | Except.ok (CacheRead.present (Except.error _)) => none
    | Except.ok (CacheRead.present (Except.ok d)) =>
      if now - d.timestamp < CACHE_DURATION then
        some { entries := d.data, status := LoadStatus.ready, fromCache := true }
      else none

/-- `loadData` (lines 210-285).  Note that in the `catch` block
(lines 265-284) the fallback `localStorage.getItem` and `JSON.parse` are
**not** wrapped in a `try`, so a throwing read or parse there propagates out
of `loadData` (modelled as `Except.error`). -/
def loadData (forceUpdate : Bool) (now : Int) (cacheGet : Except Unit CacheRead)
    (branchFetch : Except Unit RepoInfo) (treeFetch : Except Unit TreePayload)
    (source : DataSource) : Except Unit LoadOutcome :=
  match initialCacheResult forceUpdate now cacheGet with
  | some out => Except.ok out
  | none =>
    let fallback : Except Unit LoadOutcome :=
      match cacheGet with
      | Except.error e => Except.error e
      | Except.ok (CacheRead.present (Except.error e)) => Except.error e
      | Except.ok (CacheRead.present (Except.ok d)) =>
        Except.ok { entries := d.data, status := LoadStatus.ready, fromCache := true }
      | Except.ok CacheRead.absent =>
        Except.ok { entries := SAMPLE_ENTRIES, status := LoadStatus.error, fromCache := false }
    match branchFetch with
    | Except.error _ => fallback
    | Except.ok info =>
      match treeFetch with
      | Except.error _ => fallback
      | Except.ok payload =>
        let branchName := info.default_branch.getD (CONFIG source).fallbackBranch
        Except.ok { entries := fetchRepoEntries branchName source payload
                    status := LoadStatus.ready, fromCache := false }

/-- `true` exactly when the modelled call threw. -/
def exceptFails : Except Unit β → Bool
  | Except.error _ => true
  | Except.ok _ => false

/-- A concrete stand-in for `localeCompare`: plain code-unit comparison. -/
def lcDefault (a b : String) : Ordering := compare a b

/-- A degenerate `localeCompare` that reports every pair equal. -/
def lcEq (_ _ : String) : Ordering := Ordering.eq

/-! ## Helper lemmas about the JavaScript primitives -/

theorem splitOnChar_ne_nil (sep : Char) (cs : List Char) : splitOnChar sep cs ≠ [] := by
  induction cs with
  | nil => simp [splitOnChar]
  | cons c cs ih =>
    simp only [splitOnChar]
    split
    · simp
    · split <;> simp

theorem two_le_splitOnChar_length {sep : Char} {cs : List Char} (h : sep ∈ cs) :
    2 ≤ (splitOnChar sep cs).length := by
  induction cs with
  | nil => cases h
  | cons c cs ih =>
    simp only [splitOnChar]
    by_cases hc : c = sep
    · rw [if_pos hc]
      cases hq : splitOnChar sep cs with
      | nil => exact absurd hq (splitOnChar_ne_nil sep cs)
      | cons hd tl => simp
    · rw [if_neg hc]
      have hmem : sep ∈ cs := by
        rcases List.mem_cons.mp h with h1 | h1
        · exact absurd h1.symm hc
        · exact h1
      cases hq : splitOnChar sep cs with
      | nil => exact absurd hq (splitOnChar_ne_nil sep cs)
      | cons hd tl =>
        have h2 := ih hmem
        rw [hq] at h2
        simpa using h2

theorem splitOnChar_of_not_mem {sep : Char} {cs : List Char} (h : sep ∉ cs) :
    splitOnChar sep cs = [cs] := by
  induction cs with
  | nil => rfl
  | cons c cs ih =>
    have hc : ¬c = sep := fun e => h (by rw [e]; exact List.mem_cons_self sep cs)
    have hcs : sep ∉ cs := fun hm => h (List.mem_cons_of_mem c hm)
    simp only [splitOnChar]
    rw [if_neg hc, ih hcs]

theorem mem_of_getLastSome {α : Type} {l : List α} {a : α} (h : l.getLast? = some a) :
    a ∈ l := by
  obtain ⟨ys, rfl⟩ := List.getLast?_eq_some_iff.mp h
  simp

theorem getLast?_splitOnChar_cons_of_mem {sep c : Char} {cs : List Char} (h : sep ∈ cs) :
    (splitOnChar sep (c :: cs)).getLast? = (splitOnChar sep cs).getLast? := by
  simp only [splitOnChar]
  by_cases hc : c = sep
  · rw [if_pos hc]
    cases hq : splitOnChar sep cs with
    | nil => exact absurd hq (splitOnChar_ne_nil sep cs)
    | cons hd tl => rw [List.getLast?_cons_cons]
  · rw [if_neg hc]
    have h2 := two_le_splitOnChar_length h
    cases hq : splitOnChar sep cs with
    | nil => exact absurd hq (splitOnChar_ne_nil sep cs)
    | cons hd tl =>
      rw [hq] at h2
      cases tl with
      | nil => simp at h2
      | cons t1 ts => rw [List.getLast?_cons_cons, List.getLast?_cons_cons]

theorem getLast?_splitOnChar_eq_nil (sep : Char) (cs : List Char) :
    (splitOnChar sep cs).getLast? = some [] ↔ (cs = [] ∨ cs.getLast? = some sep) := by
  induction cs with
  | nil => simp [splitOnChar]
  | cons c cs ih =>
    by_cases hmem : sep ∈ cs
    · rw [getLast?_splitOnChar_cons_of_mem hmem, ih]
      have hne : cs ≠ [] := by rintro rfl; cases hmem
      cases cs with
      | nil => simp at hne
      | cons d ds => simp [List.getLast?_cons_cons]
    · by_cases hc : c = sep
      · rw [show splitOnChar sep (c :: cs) = [] :: [cs] by
          simp only [splitOnChar]
          rw [if_pos hc, splitOnChar_of_not_mem hmem]]
        cases cs with
        | nil => simp [hc]
        | cons d ds =>
          simp only [List.getLast?_cons_cons, List.getLast?_singleton]
          constructor
          · intro h
            simp at h
          · rintro (h | h)
            · cases h
            · exact absurd (mem_of_getLastSome h) hmem
      · rw [splitOnChar_of_not_mem (by
          intro hm
          rcases List.mem_cons.mp hm with h1 | h1
          · exact hc h1.symm
          · exact hmem h1)]
        constructor
        · intro h; simp at h
        · rintro (h | h)
          · cases h
          · rcases List.mem_cons.mp (mem_of_getLastSome h) with h1 | h1
            · exact absurd h1.symm hc
            · exact absurd h1 hmem

theorem jsSplit_ne_nil (sep : Char) (s : String) : jsSplit sep s ≠ [] := by
  unfold jsSplit
  intro h
  exact splitOnChar_ne_nil sep s.data (by simpa using h)

theorem string_eq_empty_iff_data (p : String) : p = "" ↔ p.data = [] := by
  constructor
  · intro h; rw [h]
  · intro h
    apply String.ext
    rw [h]

theorem string_mk_eq_empty_iff (l : List Char) : String.mk l = "" ↔ l = [] := by
  constructor
  · intro h; simpa using congrArg String.data h
  · intro h; rw [h]

theorem jsSplit_getLast?_eq_empty (p : String) :
    (jsSplit '/' p).getLast? = some "" ↔ (p = "" ∨ p.data.getLast? = some '/') := by
  unfold jsSplit
  rw [List.getLast?_map]
  cases hq : (splitOnChar '/' p.data).getLast? with
  | none =>
    exact absurd (List.getLast?_eq_none_iff.mp hq) (splitOnChar_ne_nil '/' p.data)
  | some seg =>
    have hchar := getLast?_splitOnChar_eq_nil '/' p.data
    rw [hq] at hchar
    simp only [Option.map_some']
    rw [show (some (String.mk seg) = some "") ↔ seg = [] by
      simp [string_mk_eq_empty_iff]]
    rw [← string_eq_empty_iff_data] at hchar
    rw [← hchar]
    simp

theorem jsFindIndex_bind_getElem (p : α → Bool) (l : List α) :
    (jsFindIndex p l).bind (fun i => l[i]?) = l.find? p := by
  induction l with
  | nil => rfl
  | cons x xs ih =>
    simp only [jsFindIndex]
    by_cases hp : p x = true
    · rw [if_pos hp, List.find?_cons_of_pos _ hp]
      simp
    · rw [if_neg hp, List.find?_cons_of_neg _ hp, ← ih]
      cases hq : jsFindIndex p xs with
      | none => simp [hq]
      | some j => simp [hq]

theorem jsFindIndex_eq_none {p : α → Bool} {l : List α} (h : jsFindIndex p l = none) :
    ∀ x ∈ l, p x = false := by
  induction l with
  | nil => intro x hx; cases hx
  | cons y ys ih =>
    simp only [jsFindIndex] at h
    by_cases hp : p y = true
    · rw [if_pos hp] at h; cases h
    · rw [if_neg hp] at h
      intro x hx
      rcases List.mem_cons.mp hx with rfl | hx2
      · simpa using hp
      · exact ih (Option.map_eq_none'.mp h) x hx2

theorem jsFindIndex_get {p : α → Bool} {l : List α} {i : Nat}
    (h : jsFindIndex p l = some i) : ∃ x, l[i]? = some x ∧ p x = true := by
  induction l generalizing i with
  | nil => cases h
  | cons y ys ih =>
    simp only [jsFindIndex] at h
    by_cases hp : p y = true
    · rw [if_pos hp] at h
      injection h with h
      exact ⟨y, by rw [← h]; simp, hp⟩
    · rw [if_neg hp] at h
      cases hq : jsFindIndex p ys with
      | none => rw [hq] at h; cases h
      | some j =>
        rw [hq] at h
        injection h with h
        obtain ⟨x, hx1, hx2⟩ := ih hq
        refine ⟨x, ?_, hx2⟩
        rw [← h, List.getElem?_cons_succ]
        exact hx1

theorem mapPathToEntry_some {path branch : String} {source : DataSource} {e : ProblemEntry}
    (h : mapPathToEntry path branch source = some e) :
    ∃ fn, (jsSplit '/' path).getLast? = some fn ∧ fn ≠ "" ∧
      e = mkEntry path branch source fn (jsSplit '/' path).dropLast := by
  simp only [mapPathToEntry] at h
  cases hq : (jsSplit '/' path).getLast? with
  | none => rw [hq] at h; cases h
  | some fn =>
    rw [hq] at h
    have h2 : (if fn = "" then (none : Option ProblemEntry)
        else some (mkEntry path branch source fn (jsSplit '/' path).dropLast)) = some e := h
    by_cases hfn : fn = ""
    · rw [if_pos hfn] at h2; cases h2
    · rw [if_neg hfn] at h2
      injection h2 with h2
      exact ⟨fn, rfl, hfn, h2.symm⟩

/-! ## Claim C9 -/

/-- Claim C9: the parser returns `null` exactly when the path has no
extractable file-name component, i.e. when the last `/`-separated segment is
empty — the path is the empty string or ends in a separator; every other
input yields an entry. -/
theorem c9_parse_fails_iff_no_filename :
    ∀ (path branch : String) (source : DataSource),
      mapPathToEntry path branch source = none ↔
        (path = "" ∨ path.data.getLast? = some '/') := by
  intro path branch source
  rw [← jsSplit_getLast?_eq_empty]
  simp only [mapPathToEntry]
  cases hq : (jsSplit '/' path).getLast? with
  | none => exact absurd (List.getLast?_eq_none_iff.mp hq) (jsSplit_ne_nil '/' path)
  | some fn =>
    by_cases hfn : fn = ""
    · simp [hfn]
    · simp [hfn]

/-! ## Claim C7 -/

/-- Claim C7 (counterexample): the built-in sample collection — installed
into the entry collection by the no-cache failure path of `loadData` —
contains an entry whose `id` (`"sample-readme"`) differs from its `path`
(`"README.md"`), so not every entry ever held in the collection satisfies
`id == path`. -/
theorem c7_counterexample :
    loadData true 0 (Except.ok CacheRead.absent) (Except.error ()) (Except.error ())
        DataSource.gitee =
      Except.ok { entries := SAMPLE_ENTRIES, status := LoadStatus.error, fromCache := false } ∧
    (SAMPLE_ENTRIES.all fun e => e.id == e.path) = false :=
  ⟨rfl, rfl⟩

/-- Claim C7 (amended): every entry produced by the path parser satisfies
`id == path`; parsed collections (and hence the cached copies written from
them) obey the invariant, while the built-in sample fallback entry violates
it. -/
theorem c7_amended_parser_id_eq_path :
    ∀ (path branch : String) (source : DataSource) (e : ProblemEntry),
      mapPathToEntry path branch source = some e → e.id = e.path := by
  intro path branch source e h
  obtain ⟨fn, _, _, rfl⟩ := mapPathToEntry_some h
  rfl

/-- Witness for the amended C7 theorem at a concrete path. -/
theorem c7_amended_witness :
    ((mapPathToEntry "NOIP/2019/s1.pdf" "master" DataSource.gitee).all
      fun e => e.id == e.path) = true := by
  cases hp : mapPathToEntry "NOIP/2019/s1.pdf" "master" DataSource.gitee with
  | none => rfl
  | some e =>
    have h := c7_amended_parser_id_eq_path _ _ _ _ hp
    simp [Option.all, h]

/-! ## Claim C1 -/

/-- The tie-break exactly as the spec words it: contest, ascending, when both
entries have a non-empty contest and they differ; otherwise full path. -/
def specTieBreak (lc : String → String → Ordering) (a b : ProblemEntry) : Ordering :=
  match a.contest, b.contest with
  | some ac, some bc =>
    if ac ≠ "" && bc ≠ "" && ac ≠ bc then lc ac bc else lc a.path b.path
  | _, _ => lc a.path b.path

/-- The ordering described by the amended claim: primary key year as integer,
descending, with unparsable/absent years as bottom; tie-breaks apply only
when both years parse to equal finite integers; two entries whose years are
both unparsable/absent compare as equal (the comparator's `NaN` is coerced
to `+0`), so the stable sort keeps them in input order. -/
def amendedEntryOrder (lc : String → String → Ordering) (a b : ProblemEntry) : Ordering :=
  match getYearAsNumber a.year, getYearAsNumber b.year with
  | some ka, some kb => if ka = kb then specTieBreak lc a b else compare kb ka
  | some _, none => Ordering.lt
  | none, some _ => Ordering.gt
  | none, none => Ordering.eq

/-- Claim C1 (amended): the engine's comparator realises exactly the amended
ordering — year descending with unparsable/absent years last, contest/path
tie-breaks only between equal parsed years, and no ordering at all (stable
input order) between two entries whose years are both unparsable or absent. -/
theorem c1_amended_comparator_characterization :
    ∀ (lc : String → String → Ordering) (a b : ProblemEntry),
      entryCompare lc a b = amendedEntryOrder lc a b := by
  intro lc a b
  unfold entryCompare amendedEntryOrder specTieBreak
  cases ha : getYearAsNumber a.year with
  | none => cases hb : getYearAsNumber b.year <;> rfl
  | some ka =>
    cases hb : getYearAsNumber b.year with
    | none => rfl
    | some kb =>
      by_cases h : kb = ka
      · subst h; simp
      · have h2 : ¬ka = kb := fun e => h e.symm
        simp [h, h2]

/-- Claim C1 (counterexample): two entries with absent years and distinct
paths pass through the engine unsorted — the comparator yields `NaN`
(coerced to equality), so the claimed path tie-break does not happen and the
pair stays in input order even though the path `"a"` precedes the path
`"b"` lexically (witnessed at character level by `'a' < 'b'`). -/
theorem c1_counterexample :
    filteredEntries lcDefault
        [{ id := "e1", name := "n1", path := "b", url := "", contest := none,
           year := none, level := none, segments := [] },
         { id := "e2", name := "n2", path := "a", url := "", contest := none,
           year := none, level := none, segments := [] }] "" "" "" "" =
      [{ id := "e1", name := "n1", path := "b", url := "", contest := none,
         year := none, level := none, segments := [] },
       { id := "e2", name := "n2", path := "a", url := "", contest := none,
         year := none, level := none, segments := [] }] ∧
    ('a' : Char) < 'b' := by
  exact ⟨rfl, by decide⟩

/-! ## Claim C10 -/

/-- Claim C10: for every entry collection and filter selection the engine's
output is a permutation of a subset of the input: each output element is an
unchanged input entry, nothing is duplicated or fabricated (the model being
a pure function, the input collection itself is untouched). -/
theorem c10_filter_sort_perm_of_subset :
    ∀ (lc : String → String → Ordering) (entries : List ProblemEntry)
      (year contest level filteredText : String),
      ∃ sub : List ProblemEntry,
        sub.Sublist entries ∧
          (filteredEntries lc entries year contest level filteredText).Perm sub := by
  intro lc entries year contest level filteredText
  refine ⟨(((entries.filter (passYear year)).filter (passContest contest)).filter
      (passLevel level)).filter (passSearch (jsToLower (jsTrim filteredText))), ?_, ?_⟩
  · exact (List.filter_sublist _).trans ((List.filter_sublist _).trans
      ((List.filter_sublist _).trans (List.filter_sublist _)))
  · unfold filteredEntries jsSortBy
    exact List.perm_insertionSort _ _

/-! ## Claims C2, C3, C4 -/

theorem inferYear_of_findIndex_none {dirs : List String} {fn : String}
    (h : jsFindIndex isFourDigits dirs = none) :
    inferYear dirs fn =
      (if isFourDigits (stripExt fn) then some (stripExt fn) else none) := by
  simp only [inferYear, h]
  rfl

theorem inferYear_of_findIndex_some {dirs : List String} {fn : String} {i : Nat} {x : String}
    (h : jsFindIndex isFourDigits dirs = some i) (hx : dirs[i]? = some x) :
    inferYear dirs fn = some x := by
  simp only [inferYear, h]
  simp [hx]

theorem inferContest_eq_spec (dirs : List String) (fn : String) :
    inferContest dirs fn =
      (match (if jsFindIndex isFourDigits dirs = some 0 then dirs[1]? else dirs[0]?) with
       | none => none
       | some c => if c = "" ∨ c = fn then none else some c) := by
  have hfinal : ∀ c : String,
      (if c ≠ "" && c ≠ fn then some c else none) =
        (if c = "" ∨ c = fn then none else some c) := by
    intro c
    by_cases h1 : c = "" <;> by_cases h2 : c = fn <;> simp [h1, h2]
  simp only [inferContest]
  cases hyi : jsFindIndex isFourDigits dirs with
  | some i =>
    cases i with
    | zero =>
      obtain ⟨x, hx0, hpx⟩ := jsFindIndex_get hyi
      have hyear : inferYear dirs fn = some x := inferYear_of_findIndex_some hyi hx0
      simp only [hyear, hx0]
      simp only [Nat.lt_irrefl, if_false, if_pos rfl]
      simp only [reduceIte]
      cases dirs[1]? with
      | none => rfl
      | some c => exact hfinal c
    | succ j =>
      simp only [Nat.succ_pos, if_true, if_neg (by simp : ¬some (j + 1) = some 0)]
      cases dirs[0]? with
      | none => rfl
      | some c => exact hfinal c
  | none =>
    cases h0 : dirs[0]? with
    | none =>
      have hdirs : dirs = [] := by
        cases dirs with
        | nil => rfl
        | cons d ds => simp at h0
      subst hdirs
      simp [ite_self]
    | some d =>
      have hd : d ∈ dirs := by
        obtain ⟨hlt, he⟩ := List.getElem?_eq_some_iff.mp h0
        exact he ▸ List.getElem_mem hlt
      have hpd : isFourDigits d = false := jsFindIndex_eq_none hyi d hd
      have hcond : ¬some d = inferYear dirs fn := by
        rw [inferYear_of_findIndex_none hyi]
        by_cases hst : isFourDigits (stripExt fn) = true
        · rw [if_pos hst]
          intro he
          injection he with he
          have hpd2 : isFourDigits (stripExt fn) = false := he ▸ hpd
          simp [hpd2] at hst
        · rw [if_neg hst]
          intro he
          cases he
      simp only [if_neg hcond, if_neg (by simp : ¬(none : Option Nat) = some 0)]
      exact hfinal d

/-- Claim C4: for every successfully parsed path, the contest candidate is
the first directory segment, except that when the year sits at directory
position 0 the candidate is the second segment; the contest is absent
exactly when this candidate is absent, empty, or equal to the file name, and
otherwise equals the candidate. -/
theorem c4_contest_inference :
    ∀ (path branch : String) (source : DataSource) (e : ProblemEntry),
      mapPathToEntry path branch source = some e →
      e.contest =
        (match (if jsFindIndex isFourDigits (jsSplit '/' path).dropLast = some 0 then
                  ((jsSplit '/' path).dropLast)[1]?
                else ((jsSplit '/' path).dropLast)[0]?) with
         | none => none
         | some c =>
           if c = "" ∨ c = (jsSplit '/' path).getLast?.getD "" then none else some c) := by
  intro path branch source e h
  obtain ⟨fn, hfn1, hfn2, rfl⟩ := mapPathToEntry_some h
  rw [hfn1]
  show inferContest (jsSplit '/' path).dropLast fn = _
  rw [inferContest_eq_spec]
  rfl

/-- Claim C3: for every successfully parsed path, the year is the first
directory segment consisting of exactly four digits; when no directory
segment matches, the year is the file name's extension-stripped stem when
that stem is itself four digits, and absent otherwise. -/
theorem c3_year_inference :
    ∀ (path branch : String) (source : DataSource) (e : ProblemEntry),
      mapPathToEntry path branch source = some e →
      (∀ y, ((jsSplit '/' path).dropLast).find? isFourDigits = some y → e.year = some y) ∧
      (((jsSplit '/' path).dropLast).find? isFourDigits = none →
        e.year =
          (if isFourDigits (stripExt ((jsSplit '/' path).getLast?.getD "")) then
            some (stripExt ((jsSplit '/' path).getLast?.getD "")) else none)) := by
  intro path branch source e h
  obtain ⟨fn, hfn1, hfn2, rfl⟩ := mapPathToEntry_some h
  rw [hfn1]
  constructor
  · intro y hfind
    show inferYear (jsSplit '/' path).dropLast fn = some y
    simp only [inferYear, jsFindIndex_bind_getElem, hfind]
  · intro hfind
    show inferYear (jsSplit '/' path).dropLast fn = _
    have hnone : jsFindIndex isFourDigits (jsSplit '/' path).dropLast = none := by
      cases hq : jsFindIndex isFourDigits (jsSplit '/' path).dropLast with
      | none => rfl
      | some i =>
        obtain ⟨x, hx1, hx2⟩ := jsFindIndex_get hq
        have := jsFindIndex_bind_getElem isFourDigits (jsSplit '/' path).dropLast
        rw [hq, hfind] at this
        simp [hx1] at this
    rw [inferYear_of_findIndex_none hnone]
    rfl

/-- Claim C2: for every successfully parsed path, when the year was found at
directory index `yearIndex` the level is the immediately following non-empty
directory segment when one exists; when it does not exist but `yearIndex ≥ 2`
the level is the segment preceding the year, and absent for `yearIndex < 2`;
when no directory segment is a year (including a year taken from the
file-name stem) the level is always absent. -/
theorem c2_level_inference :
    ∀ (path branch : String) (source : DataSource) (e : ProblemEntry),
      mapPathToEntry path branch source = some e →
      (jsFindIndex isFourDigits (jsSplit '/' path).dropLast = none → e.level = none) ∧
      (∀ yi, jsFindIndex isFourDigits (jsSplit '/' path).dropLast = some yi →
        (∀ s, ((jsSplit '/' path).dropLast)[yi + 1]? = some s → s ≠ "" → e.level = some s) ∧
        ((((jsSplit '/' path).dropLast)[yi + 1]? = none ∨
            ((jsSplit '/' path).dropLast)[yi + 1]? = some "") →
          (2 ≤ yi → e.level = ((jsSplit '/' path).dropLast)[yi - 1]?) ∧
          (yi < 2 → e.level = none))) := by
  intro path branch source e h
  obtain ⟨fn, hfn1, hfn2, rfl⟩ := mapPathToEntry_some h
  constructor
  · intro hnone
    show inferLevel (jsSplit '/' path).dropLast = none
    simp only [inferLevel, hnone]
  · intro yi hyi
    constructor
    · intro s hs hsne
      show inferLevel (jsSplit '/' path).dropLast = some s
      simp only [inferLevel, hyi, hs]
      simp [hsne]
    · intro hcase
      constructor
      · intro h2
        have h3 : 1 < yi := h2
        show inferLevel (jsSplit '/' path).dropLast = _
        rcases hcase with hc | hc
        · simp only [inferLevel, hyi, hc]
          simp [if_pos h3]
        · simp only [inferLevel, hyi, hc]
          simp [if_pos h3]
      · intro h2
        have h3 : ¬1 < yi := by omega
        show inferLevel (jsSplit '/' path).dropLast = none
        rcases hcase with hc | hc
        · simp only [inferLevel, hyi, hc]
          simp [if_neg h3]
        · simp only [inferLevel, hyi, hc]
          simp [if_neg h3]

/-- Witness for the C2 theorem at a concrete path with the year at directory
index 2 followed by a non-empty segment. -/
theorem c2_witness :
    ((mapPathToEntry "a/b/2020/x/f.pdf" "m" DataSource.gitee).all
      fun e => e.level == some "x") = true := by
  cases hp : mapPathToEntry "a/b/2020/x/f.pdf" "m" DataSource.gitee with
  | none => rfl
  | some e =>
    have h := ((c2_level_inference _ _ _ _ hp).2 2 (by decide)).1 "x" (by decide) (by decide)
    simp [Option.all, h]

/-- Witness for the C3 theorem at a concrete path with a directory year. -/
theorem c3_witness :
    ((mapPathToEntry "NOI/2024/day1.pdf" "m" DataSource.github).all
      fun e => e.year == some "2024") = true := by
  cases hp : mapPathToEntry "NOI/2024/day1.pdf" "m" DataSource.github with
  | none => rfl
  | some e =>
    have h := (c3_year_inference _ _ _ _ hp).1 "2024" (by decide)
    simp [Option.all, h]

/-- Witness for the C4 theorem at a concrete path whose first directory
segment is the contest. -/
theorem c4_witness :
    ((mapPathToEntry "NOI/2024/d.pdf" "m" DataSource.gitee).all
      fun e => e.contest == some "NOI") = true := by
  cases hp : mapPathToEntry "NOI/2024/d.pdf" "m" DataSource.gitee with
  | none => rfl
  | some e =>
    have h := c4_contest_inference _ _ _ _ hp
    simp only [Option.all]
    rw [h]
    decide

/-! ## Claims C5, C6 -/

theorem mem_dedupFirstAux {a : String} {seen l : List String} :
    a ∈ dedupFirstAux seen l ↔ a ∈ l ∧ a ∉ seen := by
  induction l generalizing seen with
  | nil => simp [dedupFirstAux]
  | cons x xs ih =>
    simp only [dedupFirstAux]
    by_cases hx : seen.contains x = true
    · rw [if_pos hx, ih]
      have hxs : x ∈ seen := by simpa using hx
      simp only [List.mem_cons]
      constructor
      · rintro ⟨h1, h2⟩
        exact ⟨Or.inr h1, h2⟩
      · rintro ⟨h1 | h1, h2⟩
        · exact absurd (h1 ▸ hxs) h2
        · exact ⟨h1, h2⟩
    · rw [if_neg hx]
      have hxs : x ∉ seen := by simpa using hx
      simp only [List.mem_cons]
      constructor
      · intro hmem
        rcases hmem with rfl | h1
        · exact ⟨Or.inl rfl, hxs⟩
        · obtain ⟨h2, h3⟩ := ih.mp h1
          exact ⟨Or.inr h2, fun hm => h3 (List.mem_cons_of_mem _ hm)⟩
      · rintro ⟨h1 | h1, h2⟩
        · exact Or.inl h1
        · by_cases hax : a = x
          · exact Or.inl hax
          · refine Or.inr (ih.mpr ⟨h1, fun hm => ?_⟩)
            rcases List.mem_cons.mp hm with h3 | h3
            · exact hax h3
            · exact h2 h3

theorem nodup_dedupFirstAux : ∀ {seen l : List String}, (dedupFirstAux seen l).Nodup := by
  intro seen l
  induction l generalizing seen with
  | nil => simp [dedupFirstAux]
  | cons x xs ih =>
    simp only [dedupFirstAux]
    by_cases hx : seen.contains x = true
    · rw [if_pos hx]; exact ih
    · rw [if_neg hx]
      rw [List.nodup_cons]
      refine ⟨fun hm => ?_, ih⟩
      exact (mem_dedupFirstAux.mp hm).2 (List.mem_cons_self x seen)

theorem mem_dedupFirst {a : String} {l : List String} : a ∈ dedupFirst l ↔ a ∈ l := by
  unfold dedupFirst
  rw [mem_dedupFirstAux]
  simp

theorem nodup_dedupFirst (l : List String) : (dedupFirst l).Nodup := nodup_dedupFirstAux

theorem keepTruthy_eq_some {v : Option String} {s : String} :
    keepTruthy v = some s ↔ (v = some s ∧ s ≠ "") := by
  cases v with
  | none => simp [keepTruthy]
  | some t =>
    by_cases ht : t = ""
    · subst ht
      simp only [keepTruthy, if_pos rfl]
      constructor
      · intro h; cases h
      · rintro ⟨h1, h2⟩
        injection h1 with h1
        exact absurd h1.symm h2
    · simp only [keepTruthy, if_neg ht]
      constructor
      · intro h
        injection h with h
        exact ⟨by rw [h], fun he => ht (h.trans he)⟩
      · rintro ⟨h1, h2⟩
        injection h1 with h1
        rw [h1]

/-- Claim C5: `buildOptions` drops empty/absent values, never returns
duplicates, in numeric mode sorts descending by parsed integer with every
unparsable value ranked after all parsable ones, maps the example years
`["2020","2024","abc"]` to exactly `["2024","2020","abc"]`, and in lexical
mode returns a list sorted ascending by the locale comparison whenever that
comparison is total and transitive. -/
theorem c5_buildOptions_spec :
    ∀ (lc : String → String → Ordering) (values : List (Option String)),
      (∀ b, (buildOptions lc values b).Nodup) ∧
      (∀ b s, s ∈ buildOptions lc values b ↔ (s ≠ "" ∧ some s ∈ values)) ∧
      (buildOptions lc values true).Sorted
        (fun a b => keyGE (safeParse a) (safeParse b) = true) ∧
      buildOptions lc [some "2020", some "2024", some "abc"] true =
        ["2024", "2020", "abc"] ∧
      ((∀ x y, ordNotGT (lc x y) = true ∨ ordNotGT (lc y x) = true) →
        (∀ x y z, ordNotGT (lc x y) = true → ordNotGT (lc y z) = true →
          ordNotGT (lc x z) = true) →
        (buildOptions lc values false).Sorted (fun a b => ordNotGT (lc a b) = true)) := by
  intro lc values
  have hperm : ∀ b, (buildOptions lc values b).Perm (dedupFirst (values.filterMap keepTruthy)) := by
    intro b
    cases b <;> simp only [buildOptions, jsSortBy, if_true, if_false, Bool.false_eq_true,
      if_neg Bool.false_ne_true] <;> exact List.perm_insertionSort _ _
  refine ⟨?_, ?_, ?_, ?_, ?_⟩
  · intro b
    exact ((hperm b).symm.nodup (nodup_dedupFirst _))
  · intro b s
    rw [(hperm b).mem_iff, mem_dedupFirst, List.mem_filterMap]
    constructor
    · rintro ⟨v, hv, hkeep⟩
      obtain ⟨h1, h2⟩ := keepTruthy_eq_some.mp hkeep
      exact ⟨h2, h1 ▸ hv⟩
    · rintro ⟨h1, h2⟩
      exact ⟨some s, h2, keepTruthy_eq_some.mpr ⟨rfl, h1⟩⟩
  · haveI : IsTotal String (fun a b => keyGE (safeParse a) (safeParse b) = true) := by
      constructor
      intro a b
      cases hx : safeParse a <;> cases hy : safeParse b <;> simp [keyGE] <;> omega
    haveI : IsTrans String (fun a b => keyGE (safeParse a) (safeParse b) = true) := by
      constructor
      intro a b c hab hbc
      cases hx : safeParse a <;> cases hy : safeParse b <;> cases hz : safeParse c <;>
        rw [hx, hy] at hab <;> rw [hy, hz] at hbc <;> simp [keyGE] at hab hbc ⊢ <;> omega
    simp only [buildOptions, jsSortBy, if_true]
    exact List.sorted_insertionSort _ _
  · rfl
  · intro htot htrans
    haveI : IsTotal String (fun a b => ordNotGT (lc a b) = true) := ⟨htot⟩
    haveI : IsTrans String (fun a b => ordNotGT (lc a b) = true) := ⟨htrans⟩
    simp only [buildOptions, jsSortBy, Bool.false_eq_true, if_neg Bool.false_ne_true]
    exact List.sorted_insertionSort _ _

/-- Witness for the C5 theorem: the concrete example in numeric mode, and
the lexical-mode sortedness under the (trivially total and transitive)
degenerate locale comparison. -/
theorem c5_witness :
    buildOptions lcEq [some "2020", some "2024", some "abc"] true =
      ["2024", "2020", "abc"] ∧
    (buildOptions lcEq [some "2020", some "2024", some "abc"] false).Sorted
      (fun a b => ordNotGT (lcEq a b) = true) := by
  refine ⟨(c5_buildOptions_spec lcEq [some "2020", some "2024", some "abc"]).2.2.2.1, ?_⟩
  exact (c5_buildOptions_spec lcEq [some "2020", some "2024", some "abc"]).2.2.2.2
    (fun x y => Or.inl rfl) (fun x y z h1 h2 => rfl)

/-- Claim C6 (counterexample): `buildOptions` is not deterministic over
multisets: the two permuted inputs `["abc","xyz"]` and `["xyz","abc"]` —
both numerically unparsable, so tied at `-Infinity` — keep their respective
input orders, producing different output sequences. -/
theorem c6_counterexample :
    buildOptions lcDefault [some "abc", some "xyz"] true = ["abc", "xyz"] ∧
    buildOptions lcDefault [some "xyz", some "abc"] true = ["xyz", "abc"] ∧
    ([some "abc", some "xyz"] : List (Option String)).Perm [some "xyz", some "abc"] ∧
    (["abc", "xyz"] : List String) ≠ ["xyz", "abc"] := by
  exact ⟨rfl, rfl, List.Perm.swap _ _ _, by decide⟩

theorem dedupFirst_perm_of_perm {l1 l2 : List String} (h : l1.Perm l2) :
    (dedupFirst l1).Perm (dedupFirst l2) := by
  rw [List.perm_ext_iff_of_nodup (nodup_dedupFirst l1) (nodup_dedupFirst l2)]
  intro a
  rw [mem_dedupFirst, mem_dedupFirst]
  exact h.mem_iff

/-- Claim C6 (amended): over multisets `buildOptions` is deterministic up to
ties of the sort comparator: for permuted inputs the outputs are permutations
of each other (same values, no duplicates); the exact sequence can differ
when two kept values compare equal — e.g. two numerically unparsable
values, which keep their first-occurrence order. -/
theorem c6_amended_perm_invariance :
    ∀ (lc : String → String → Ordering) (b : Bool) (l1 l2 : List (Option String)),
      l1.Perm l2 → (buildOptions lc l1 b).Perm (buildOptions lc l2 b) := by
  intro lc b l1 l2 h
  have hd := dedupFirst_perm_of_perm (h.filterMap keepTruthy)
  cases b <;>
    simp only [buildOptions, jsSortBy, if_true, Bool.false_eq_true,
      if_neg Bool.false_ne_true] <;>
    exact (List.perm_insertionSort _ _).trans (hd.trans (List.perm_insertionSort _ _).symm)

/-- Witness for the amended C6 theorem on a concrete pair of permuted
inputs. -/
theorem c6_witness :
    (buildOptions lcDefault [some "b", some "a"] true).Perm
      (buildOptions lcDefault [some "a", some "b"] true) :=
  c6_amended_perm_invariance lcDefault true _ _ (List.Perm.swap _ _ _)

/-! ## Claim C8 -/

/-- Claim C8 (counterexample): a cache read that throws does interrupt the
fetch-failure fallback — `loadData` propagates the exception instead of
resolving to a renderable state, because the fallback `getItem`/`JSON.parse`
at lines 269-271 are not inside any `try`. -/
theorem c8_counterexample :
    loadData true 0 (Except.error ()) (Except.error ()) (Except.error ())
      DataSource.gitee = Except.error () := rfl

/-- Claim C8 (amended): whenever the pre-fetch cache branch did not return
early and a fetch fails, `loadData` falls back to the cached collection when
the fallback cache read succeeds with a parsable value (regardless of
freshness), to the built-in samples when it yields nothing — but a throwing
read or parse during this fallback propagates as an uncaught error; only the
initial pre-fetch cache read swallows failures. -/
theorem c8_amended_fallback :
    ∀ (forceUpdate : Bool) (now : Int) (cacheGet : Except Unit CacheRead)
      (branchFetch : Except Unit RepoInfo) (treeFetch : Except Unit TreePayload)
      (source : DataSource),
      initialCacheResult forceUpdate now cacheGet = none →
      (exceptFails branchFetch = true ∨ exceptFails treeFetch = true) →
      loadData forceUpdate now cacheGet branchFetch treeFetch source =
        (match cacheGet with
         | Except.ok (CacheRead.present (Except.ok d)) =>
           Except.ok { entries := d.data, status := LoadStatus.ready, fromCache := true }
         | Except.ok CacheRead.absent =>
           Except.ok { entries := SAMPLE_ENTRIES, status := LoadStatus.error,
                       fromCache := false }
         | Except.ok (CacheRead.present (Except.error e)) => Except.error e
         | Except.error e => Except.error e) := by
  intro fu now cg bf tf src h1 h2
  simp only [loadData, h1]
  cases bf with
  | error e =>
    cases cg with
    | error e2 => rfl
    | ok cr =>
      cases cr with
      | absent => rfl
      | present pr => cases pr <;> rfl
  | ok info =>
    cases tf with
    | error e =>
      cases cg with
      | error e2 => rfl
      | ok cr =>
        cases cr with
        | absent => rfl
        | present pr => cases pr <;> rfl
    | ok payload =>
      simp [exceptFails] at h2

/-- Witness for the amended C8 theorem: failing fetch, readable stale cache. -/
theorem c8_witness :
    loadData true 0 (Except.ok (CacheRead.present (Except.ok
        { timestamp := 0, data := [], branch := "m", updatedAt := none })))
      (Except.error ()) (Except.error ()) DataSource.gitee =
      Except.ok { entries := [], status := LoadStatus.ready, fromCache := true } := by
  exact c8_amended_fallback true 0 (Except.ok (CacheRead.present (Except.ok
      { timestamp := 0, data := [], branch := "m", updatedAt := none })))
    (Except.error ()) (Except.error ()) DataSource.gitee rfl (Or.inl rfl)
